import Mathlib

/-!
Shallow embedding of the delivery assignment and re-optimization engine
(`Delivery_agent_git.py`): the delivery data model, the sanitizer
(`sanitize_deliveries`), the oracle-facing operations
(`analyze_priorities`, `optimize_routes` with its merge), and the
agent-view filter and auto-assignment from `main`.

Modeling conventions:
* A Python delivery dict is a `Delivery` record whose fields are all
  `Option`: `none` models an absent key.  The nine fields are the data
  model of the spec; coordinates are modeled as rationals.
* Draws from the Python `random` module are configuration-provided
  choices: an `Rng` supplies, per record index, the coordinate pair from
  `random_coord`, the index into the agent roster chosen by
  `random.choice`, the index into the priority-label list, and the
  offset for `random.randint(3, 9)` (a `Fin 7`, so the drawn score is
  `3 + offset`, exactly the codomain of `randint(3, 9)`).
* A call to an external oracle is modeled by its observable outcome: an
  `Option (List Delivery)` response, `none` covering a raised exception
  or an unparseable reply (both are caught by the same `except` block).
* Python string case mapping (`str.lower`, `str.capitalize`) is modeled
  on the basic latin range via `Char.toLower` / `Char.toUpper`.
-/

/-- A delivery record.  Every field is optional: a delivery-like dict in
the source may lack any key. -/
structure Delivery where
  delivery_id : Option String
  item : Option String
  location : Option String
  lat : Option Rat
  lon : Option Rat
  assigned_agent : Option String
  priority_label : Option String
  urgency_score : Option Int
  reason : Option String
  deriving DecidableEq, Repr

/-- The record with no keys at all: `{}` in Python. -/
def emptyDelivery : Delivery :=
  ⟨none, none, none, none, none, none, none, none, none⟩

/-- The agent roster hard-coded in `sanitize_deliveries`. -/
def AGENTS : List String := ["Ravi", "Amit", "Suman", "Priya", "Rohit"]

/-- The priority labels hard-coded in `sanitize_deliveries`. -/
def PRIORITY_LABELS : List String := ["High", "Medium", "Low"]

/-- The fixed fallback rationale string used by `sanitize_deliveries`. -/
def FALLBACK_REASON : String := "Default fallback priority."

/-- The random draws consumed by `sanitize_deliveries`, indexed by record
position: `coord i` is the pair returned by `random_coord()` for record
`i`, `agentIdx i` the roster index chosen by `random.choice`,
`priorityIdx i` the label index, and `urgencyIdx i` the offset such that
`random.randint(3, 9)` returned `3 + urgencyIdx i`. -/
structure Rng where
  coord : Nat → Rat × Rat
  agentIdx : Nat → Fin AGENTS.length
  priorityIdx : Nat → Fin PRIORITY_LABELS.length
  urgencyIdx : Nat → Fin 7

/-- The body of the `for i, d in enumerate(deliveries)` loop of
`sanitize_deliveries`: each `setdefault` keeps a present field and fills
an absent one; if `lat` or `lon` is absent, both are overwritten by a
fresh `random_coord()` pair. -/
def sanitizeOne (rng : Rng) (i : Nat) (d : Delivery) : Delivery where
  delivery_id := some (d.delivery_id.getD ("D" ++ toString (i + 1)))
  item := some (d.item.getD ("Package " ++ toString (i + 1)))
  location := some (d.location.getD ("Location " ++ toString (i + 1)))
  lat := some (match d.lat, d.lon with
    | some la, some _ => la
    | _, _ => (rng.coord i).1)
  lon := some (match d.lat, d.lon with
    | some _, some lo => lo
    | _, _ => (rng.coord i).2)
  assigned_agent := some (d.assigned_agent.getD (AGENTS.get (rng.agentIdx i)))
  priority_label :=
    some (d.priority_label.getD (PRIORITY_LABELS.get (rng.priorityIdx i)))
  urgency_score := some (d.urgency_score.getD (3 + ((rng.urgencyIdx i).val : Int)))
  reason := some (d.reason.getD FALLBACK_REASON)

/-- The function `sanitize_deliveries`, unfolded from index `i` onward. -/
def sanitizeFrom (rng : Rng) : Nat → List Delivery → List Delivery
  | _, [] => []
  | i, d :: ds => sanitizeOne rng i d :: sanitizeFrom rng (i + 1) ds

/-- The function `sanitize_deliveries(deliveries)`: defaults every missing field of
every record, in order, starting the 1-based index at 1. -/
def sanitize_deliveries (rng : Rng) (ds : List Delivery) : List Delivery :=
  sanitizeFrom rng 0 ds

/-- A record with all nine fields present. -/
def Delivery.full (d : Delivery) : Bool :=
  d.delivery_id.isSome && d.item.isSome && d.location.isSome &&
    d.lat.isSome && d.lon.isSome && d.assigned_agent.isSome &&
    d.priority_label.isSome && d.urgency_score.isSome && d.reason.isSome

/-- A fixed choice of random draws, used for concrete evaluations. -/
def rng0 : Rng where
  coord := fun _ => (22, 88)
  agentIdx := fun _ => ⟨0, by decide⟩
  priorityIdx := fun _ => ⟨0, by decide⟩
  urgencyIdx := fun _ => ⟨0, by decide⟩

/-- Python `str.lower()` (modeled on the basic latin range). -/
def pyLower (s : String) : String :=
  String.mk (s.data.map Char.toLower)

/-- Python `str.capitalize()`: upper-case the first character,
lower-case the rest (modeled on the basic latin range). -/
def pyCapitalize (s : String) : String :=
  match s.data with
  | [] => ""
  | c :: cs => String.mk (c.toUpper :: cs.map Char.toLower)

/-- The agent-view filter in `main`:
`[d for d in deliveries if d.get("assigned_agent", "").lower() == username.lower()]`.
A record with no `assigned_agent` key contributes the empty string. -/
def filter_by_agent (ds : List Delivery) (agentId : String) : List Delivery :=
  ds.filter (fun d => pyLower (d.assigned_agent.getD "") == pyLower agentId)

/-- The auto-assignment block of `main`: when the filtered view of the agent is
empty and the set is non-empty, `random.choice(deliveries)` picks one
record (modeled by the index `pick`; `random.choice` on a non-empty list
always yields a valid index, so the `none` branch is unreachable for
in-range `pick`), its `assigned_agent` is set to `username.capitalize()`
in place, and the whole mutated set is saved.  Returns the persisted set
and the `assigned` list shown to the agent. -/
def auto_assign_if_unassigned (ds : List Delivery) (agentId : String)
    (pick : Nat) : List Delivery × List Delivery :=
  let assigned := filter_by_agent ds agentId
  if assigned.isEmpty && !ds.isEmpty then
    match ds[pick]? with
    | some d =>
      let d2 := { d with assigned_agent := some (pyCapitalize agentId) }
      (ds.set pick d2, [d2])
    | none => (ds, assigned)
  else
    (ds, assigned)

/-- Overwriting dict union `{**base, **o}` restricted to one field: a key
present in `o` wins, otherwise the key of `base` (if any) survives. -/
def updField {α : Type} (base o : Option α) : Option α :=
  match o with
  | some v => some v
  | none => base

/-- Dict union `{**base, **o}`: the record `o` overlaid on `base`. -/
def overlay (base o : Delivery) : Delivery where
  delivery_id := updField base.delivery_id o.delivery_id
  item := updField base.item o.item
  location := updField base.location o.location
  lat := updField base.lat o.lat
  lon := updField base.lon o.lon
  assigned_agent := updField base.assigned_agent o.assigned_agent
  priority_label := updField base.priority_label o.priority_label
  urgency_score := updField base.urgency_score o.urgency_score
  reason := updField base.reason o.reason

/-- The dict `base_map = {d["delivery_id"]: d for d in deliveries}`: the
comprehension evaluates `d["delivery_id"]` for every prior record, so a
single record without the key raises `KeyError` (`none` here). -/
def baseMap? : List Delivery → Option (List (String × Delivery))
  | [] => some []
  | d :: ds =>
    match d.delivery_id, baseMap? ds with
    | some k, some m => some ((k, d) :: m)
    | _, _ => none

/-- Lookup in the association list built by `baseMap?` with Python dict
semantics: a later binding of the same key overwrites an earlier one. -/
def lookupLast (k : String) : List (String × Delivery) → Option Delivery
  | [] => none
  | (k2, d) :: rest =>
    match lookupLast k rest with
    | some d2 => some d2
    | none => if k2 = k then some d else none

/-- One element of the merge comprehension:
`{**base_map.get(o["delivery_id"], {}), **o}`.  A response record without
a `delivery_id` key raises `KeyError` (`none`). -/
def mergeOne (bm : List (String × Delivery)) (o : Delivery) : Option Delivery :=
  match o.delivery_id with
  | some k => some (overlay ((lookupLast k bm).getD emptyDelivery) o)
  | none => none

/-- The whole merge comprehension: it either completes for every response
record or raises, so no partially merged list is ever produced. -/
def mergeList (bm : List (String × Delivery)) :
    List Delivery → Option (List Delivery)
  | [] => some []
  | o :: os =>
    match mergeOne bm o with
    | none => none
    | some m =>
      match mergeList bm os with
      | none => none
      | some ms => some (m :: ms)

/-- Lines 122-123 of the source: build `base_map` from the prior set and
merge each oracle response record onto its prior record (or onto `{}`).
`none` models the `KeyError` raised inside the `try` block. -/
def mergeRoutes (prior optimized : List Delivery) : Option (List Delivery) :=
  match baseMap? prior with
  | some bm => mergeList bm optimized
  | none => none

/-- Model of `GenAIAgent.optimize_routes` with the outcome of the oracle
call made
explicit: `resp = none` is a transport/parse failure; with a parsed
response, a `KeyError` during the merge is caught by the same `except`
and also falls back to `sanitize_deliveries` over the original input.
The boolean is `true` on the success message, `false` on fallback. -/
def optimize_routes (rng : Rng) (deliveries : List Delivery)
    (resp : Option (List Delivery)) : List Delivery × Bool :=
  match resp with
  | none => (sanitize_deliveries rng deliveries, false)
  | some optimized =>
    match mergeRoutes deliveries optimized with
    | some merged => (merged, true)
    | none => (sanitize_deliveries rng deliveries, false)

/-- Model of `GenAIAgent.analyze_priorities` with the outcome of the oracle
call made
explicit: on success the parsed data is returned as-is; on a raised
exception or unparseable reply (`resp = none`) it returns
`sanitize_deliveries` over the original input. -/
def analyze_priorities (rng : Rng) (deliveries : List Delivery)
    (resp : Option (List Delivery)) : List Delivery × Bool :=
  match resp with
  | some data => (data, true)
  | none => (sanitize_deliveries rng deliveries, false)

theorem sanitizeFrom_length (rng : Rng) (i : Nat) (ds : List Delivery) :
    (sanitizeFrom rng i ds).length = ds.length := by
  induction ds generalizing i with
  | nil => rfl
  | cons d ds ih => simp [sanitizeFrom, ih]

theorem sanitizeFrom_getElem? (rng : Rng) (i j : Nat) (ds : List Delivery) :
    (sanitizeFrom rng i ds)[j]? = (ds[j]?).map (sanitizeOne rng (i + j)) := by
  induction ds generalizing i j with
  | nil => simp [sanitizeFrom]
  | cons d ds ih =>
    cases j with
    | zero => simp [sanitizeFrom]
    | succ j =>
      simp only [sanitizeFrom, List.getElem?_cons_succ, ih (i + 1) j]
      have : i + 1 + j = i + (j + 1) := by omega
      rw [this]

theorem sanitize_getElem? (rng : Rng) (j : Nat) (ds : List Delivery) :
    (sanitize_deliveries rng ds)[j]? = (ds[j]?).map (sanitizeOne rng j) := by
  have h := sanitizeFrom_getElem? rng 0 j ds
  simpa [sanitize_deliveries] using h

theorem sanitizeOne_full (rng : Rng) (i : Nat) (d : Delivery) :
    (sanitizeOne rng i d).full = true := rfl

theorem sanitizeOne_eq_self (rng : Rng) (i : Nat) {d : Delivery}
    (h : d.full = true) : sanitizeOne rng i d = d := by
  obtain ⟨f1, f2, f3, f4, f5, f6, f7, f8, f9⟩ := d
  simp only [Delivery.full, Bool.and_eq_true, Option.isSome_iff_exists] at h
  obtain ⟨⟨⟨⟨⟨⟨⟨⟨⟨v1, rfl⟩, v2, rfl⟩, v3, rfl⟩, v4, rfl⟩, v5, rfl⟩,
    v6, rfl⟩, v7, rfl⟩, v8, rfl⟩, v9, rfl⟩ := h
  rfl

theorem sanitizeFrom_eq_self (rng : Rng) (i : Nat) {ds : List Delivery}
    (h : ∀ d ∈ ds, d.full = true) : sanitizeFrom rng i ds = ds := by
  induction ds generalizing i with
  | nil => rfl
  | cons d ds ih =>
    simp only [sanitizeFrom]
    rw [sanitizeOne_eq_self rng i (h d (List.mem_cons_self d ds)),
      ih (i + 1) (fun x hx => h x (List.mem_cons_of_mem d hx))]

theorem sanitizeFrom_all_full (rng : Rng) (i : Nat) (ds : List Delivery) :
    ∀ d ∈ sanitizeFrom rng i ds, d.full = true := by
  induction ds generalizing i with
  | nil => intro d hd; simp [sanitizeFrom] at hd
  | cons x xs ih =>
    intro d hd
    simp only [sanitizeFrom, List.mem_cons] at hd
    rcases hd with h | h
    · rw [h]; exact sanitizeOne_full rng i x
    · exact ih (i + 1) d h

theorem toNat_ofNat_of_valid {n : Nat} (h : n.isValidChar) :
    (Char.ofNat n).toNat = n := by
  simp [Char.ofNat, dif_pos h, Char.ofNatAux, Char.toNat, UInt32.toNat,
    BitVec.toNat_ofNatLt]

theorem toLower_toUpper (c : Char) : c.toUpper.toLower = c.toLower := by
  by_cases h : c.toNat >= 97 ∧ c.toNat <= 122
  · have h1 : c.toUpper = Char.ofNat (c.toNat - 32) := by
      simp only [Char.toUpper]
      rw [if_pos h]
    have hv : Nat.isValidChar (c.toNat - 32) := Or.inl (by omega)
    have h2 : c.toLower = c := by
      simp only [Char.toLower]
      rw [if_neg (by omega : ¬(c.toNat >= 65 ∧ c.toNat <= 90))]
    rw [h1, h2]
    simp only [Char.toLower]
    rw [toNat_ofNat_of_valid hv]
    rw [if_pos (by omega : c.toNat - 32 >= 65 ∧ c.toNat - 32 <= 90)]
    have e : c.toNat - 32 + 32 = c.toNat := by omega
    rw [e, Char.ofNat_toNat]
  · have h1 : c.toUpper = c := by
      simp only [Char.toUpper]
      rw [if_neg h]
    rw [h1]

theorem toLower_toLower (c : Char) : c.toLower.toLower = c.toLower := by
  by_cases h : c.toNat >= 65 ∧ c.toNat <= 90
  · have h1 : c.toLower = Char.ofNat (c.toNat + 32) := by
      simp only [Char.toLower]
      rw [if_pos h]
    have hv : Nat.isValidChar (c.toNat + 32) := Or.inl (by omega)
    rw [h1]
    simp only [Char.toLower]
    rw [toNat_ofNat_of_valid hv]
    rw [if_neg (by omega : ¬(c.toNat + 32 >= 65 ∧ c.toNat + 32 <= 90))]
  · have h1 : c.toLower = c := by
      simp only [Char.toLower]
      rw [if_neg h]
    rw [h1, h1]

theorem pyLower_pyCapitalize (s : String) :
    pyLower (pyCapitalize s) = pyLower s := by
  obtain ⟨l⟩ := s
  cases l with
  | nil => rfl
  | cons c cs =>
    show String.mk ((c.toUpper :: cs.map Char.toLower).map Char.toLower) =
      String.mk ((c :: cs).map Char.toLower)
    apply congrArg
    simp only [List.map_cons, List.map_map]
    rw [toLower_toUpper c]
    congr 1
    exact List.map_congr_left fun x _ => toLower_toLower x

theorem pyLower_eq_empty_iff (s : String) : pyLower s = "" ↔ s = "" := by
  obtain ⟨l⟩ := s
  cases l with
  | nil => exact Iff.intro (fun _ => rfl) (fun _ => rfl)
  | cons c cs =>
    constructor
    · intro h
      have h2 : (pyLower (String.mk (c :: cs))).data = String.data "" :=
        congrArg String.data h
      simp [pyLower] at h2
    · intro h
      have h2 : (String.mk (c :: cs)).data = String.data "" :=
        congrArg String.data h
      simp at h2

theorem baseMap?_isSome {prior : List Delivery}
    (h : ∀ p ∈ prior, p.delivery_id.isSome = true) :
    ∃ bm, baseMap? prior = some bm := by
  induction prior with
  | nil => exact ⟨[], rfl⟩
  | cons d ds ih =>
    obtain ⟨k, hk⟩ := Option.isSome_iff_exists.mp (h d (List.mem_cons_self d ds))
    obtain ⟨bm, hbm⟩ := ih (fun p hp => h p (List.mem_cons_of_mem d hp))
    exact ⟨(k, d) :: bm, by simp [baseMap?, hk, hbm]⟩

theorem lookupLast_spec {prior : List Delivery} {bm : List (String × Delivery)}
    (hbm : baseMap? prior = some bm) (k : String) :
    (∃ p ∈ prior, p.delivery_id = some k ∧ lookupLast k bm = some p) ∨
    ((∀ p ∈ prior, p.delivery_id ≠ some k) ∧ lookupLast k bm = none) := by
  induction prior generalizing bm with
  | nil =>
    simp only [baseMap?, Option.some.injEq] at hbm
    subst hbm
    right
    exact ⟨by simp, rfl⟩
  | cons d ds ih =>
    cases hid : d.delivery_id with
    | none => rw [baseMap?, hid] at hbm; exact absurd hbm (by simp)
    | some k1 =>
      cases hrest : baseMap? ds with
      | none =>
        rw [baseMap?, hid, hrest] at hbm
        exact absurd hbm (by simp)
      | some m =>
        rw [baseMap?, hid, hrest] at hbm
        have hbm2 : bm = (k1, d) :: m := (Option.some.inj hbm).symm
        subst hbm2
        rcases ih hrest with ⟨p, hp, hpk, hl⟩ | ⟨hall, hl⟩
        · left
          exact ⟨p, List.mem_cons_of_mem d hp, hpk, by simp [lookupLast, hl]⟩
        · by_cases hk : k1 = k
          · left
            refine ⟨d, List.mem_cons_self d ds, by rw [hid, hk], ?_⟩
            simp [lookupLast, hl, hk]
          · right
            constructor
            · intro p hp
              rcases List.mem_cons.mp hp with rfl | hp2
              · rw [hid]
                intro hc
                exact hk (Option.some.inj hc)
              · exact hall p hp2
            · simp [lookupLast, hl, hk]

theorem mergeOne_eq (bm : List (String × Delivery)) {o : Delivery} {k : String}
    (h : o.delivery_id = some k) :
    mergeOne bm o = some (overlay ((lookupLast k bm).getD emptyDelivery) o) := by
  simp [mergeOne, h]

theorem mergeList_some (bm : List (String × Delivery)) {os : List Delivery}
    (h : ∀ o ∈ os, o.delivery_id.isSome = true) :
    mergeList bm os = some (os.map (fun o =>
      overlay ((lookupLast (o.delivery_id.getD "") bm).getD emptyDelivery) o)) := by
  induction os with
  | nil => rfl
  | cons o os ih =>
    obtain ⟨k, hk⟩ := Option.isSome_iff_exists.mp (h o (List.mem_cons_self o os))
    have h1 := mergeOne_eq bm hk
    have h2 := ih (fun x hx => h x (List.mem_cons_of_mem o hx))
    simp [mergeList, h1, h2, hk]

theorem mergeList_none {bm : List (String × Delivery)} {os : List Delivery}
    (h : ∃ o ∈ os, o.delivery_id = none) : mergeList bm os = none := by
  induction os with
  | nil => simp at h
  | cons o os ih =>
    rcases h with ⟨x, hx, hxn⟩
    rcases List.mem_cons.mp hx with rfl | hx2
    · have h1 : mergeOne bm x = none := by simp [mergeOne, hxn]
      simp [mergeList, h1]
    · have h2 := ih ⟨x, hx2, hxn⟩
      cases hmo : mergeOne bm o <;> simp [mergeList, h2, hmo]

theorem overlay_delivery_id {b o : Delivery} {k : String}
    (h : o.delivery_id = some k) : (overlay b o).delivery_id = some k := by
  simp [overlay, updField, h]

theorem sanitizeFrom_map_id (rng : Rng) (i : Nat) {ds : List Delivery}
    (hall : ∀ d ∈ ds, d.delivery_id.isSome = true) :
    (sanitizeFrom rng i ds).map Delivery.delivery_id =
      ds.map Delivery.delivery_id := by
  induction ds generalizing i with
  | nil => rfl
  | cons d ds ih =>
    obtain ⟨k, hk⟩ := Option.isSome_iff_exists.mp (hall d (List.mem_cons_self d ds))
    simp only [sanitizeFrom, List.map_cons]
    rw [ih (i + 1) (fun x hx => hall x (List.mem_cons_of_mem d hx))]
    congr 1
    simp [sanitizeOne, hk]

/-- C4: `sanitize_deliveries` returns a sequence of the same length in the
same order (record `i` of the output is exactly the sanitized record `i`
of the input) in which every record has all nine fields of the data model
populated; a defaulted `urgency_score` is an integer in `[3, 9]` and a
defaulted `priority_label` is one of `{High, Medium, Low}`. -/
theorem sanitizer_contract (rng : Rng) (ds : List Delivery) :
    (sanitize_deliveries rng ds).length = ds.length ∧
    ∀ i d d2, ds[i]? = some d → (sanitize_deliveries rng ds)[i]? = some d2 →
      d2 = sanitizeOne rng i d ∧
      d2.full = true ∧
      (d.urgency_score = none →
        ∃ u : Int, d2.urgency_score = some u ∧ 3 ≤ u ∧ u ≤ 9) ∧
      (d.priority_label = none →
        ∃ p, d2.priority_label = some p ∧ p ∈ PRIORITY_LABELS) := by
  constructor
  · exact sanitizeFrom_length rng 0 ds
  · intro i d d2 hd hd2
    rw [sanitize_getElem? rng i ds, hd] at hd2
    simp only [Option.map_some'] at hd2
    have hd2e : d2 = sanitizeOne rng i d := (Option.some.inj hd2).symm
    subst hd2e
    refine ⟨rfl, sanitizeOne_full rng i d, ?_, ?_⟩
    · intro hu
      refine ⟨3 + ((rng.urgencyIdx i).val : Int), by simp [sanitizeOne, hu], by omega, ?_⟩
      have hlt := (rng.urgencyIdx i).isLt
      omega
    · intro hp
      exact ⟨PRIORITY_LABELS.get (rng.priorityIdx i), by simp [sanitizeOne, hp],
        List.get_mem _ _ _⟩

/-- Witness for C4 at a concrete input. -/
theorem sanitizer_contract_witness :
    (sanitize_deliveries rng0 [emptyDelivery]).length = 1 ∧
    (sanitizeOne rng0 0 emptyDelivery).full = true := by
  have h := sanitizer_contract rng0 [emptyDelivery]
  exact ⟨h.1, (h.2 0 emptyDelivery (sanitizeOne rng0 0 emptyDelivery) rfl rfl).2.1⟩

/-- C5: sanitizing an already fully-populated sequence returns it
unchanged; equivalently, sanitizing the output of the sanitizer returns
that output unchanged (idempotence). -/
theorem sanitize_idempotent (rng rng2 : Rng) (ds : List Delivery) :
    ((∀ d ∈ ds, d.full = true) → sanitize_deliveries rng ds = ds) ∧
    sanitize_deliveries rng2 (sanitize_deliveries rng ds) =
      sanitize_deliveries rng ds := by
  constructor
  · intro h
    exact sanitizeFrom_eq_self rng 0 h
  · exact sanitizeFrom_eq_self rng2 0 (sanitizeFrom_all_full rng 0 ds)

/-- Witness for C5 at a concrete input. -/
theorem sanitize_idempotent_witness :
    sanitize_deliveries rng0 (sanitize_deliveries rng0 [emptyDelivery]) =
      sanitize_deliveries rng0 [emptyDelivery] :=
  (sanitize_idempotent rng0 rng0 (sanitize_deliveries rng0 [emptyDelivery])).1
    (by decide)

/-- The C2 counterexample input: `lat` present, `lon` absent. -/
def latOnlyRecord : Delivery :=
  { emptyDelivery with delivery_id := some "DX", lat := some 1 }

/-- C2 as stated is false on the code: a record whose `lat` is present but
whose `lon` is absent has its present `lat` overwritten by the freshly
generated coordinate pair (here `22` replaces `1`), because the source
regenerates both coordinates whenever either is missing. -/
theorem sanitize_lat_overwrite_counterexample :
    latOnlyRecord.lat = some 1 ∧
    (sanitize_deliveries rng0 [latOnlyRecord]).map Delivery.lat = [some 22] := by
  exact ⟨rfl, by decide⟩

/-- C2 amended: sanitization never overwrites a present value of the seven
non-coordinate fields, and keeps `lat` and `lon` when both are present;
but when either coordinate is absent, both are regenerated together,
overwriting a present `lat` (or `lon`). -/
theorem sanitize_no_overwrite_amended (rng : Rng) (ds : List Delivery) :
    ∀ i d d2, ds[i]? = some d → (sanitize_deliveries rng ds)[i]? = some d2 →
      (∀ v, d.delivery_id = some v → d2.delivery_id = some v) ∧
      (∀ v, d.item = some v → d2.item = some v) ∧
      (∀ v, d.location = some v → d2.location = some v) ∧
      (∀ v, d.assigned_agent = some v → d2.assigned_agent = some v) ∧
      (∀ v, d.priority_label = some v → d2.priority_label = some v) ∧
      (∀ v, d.urgency_score = some v → d2.urgency_score = some v) ∧
      (∀ v, d.reason = some v → d2.reason = some v) ∧
      (∀ a b, d.lat = some a → d.lon = some b →
        d2.lat = some a ∧ d2.lon = some b) ∧
      ((d.lat = none ∨ d.lon = none) →
        d2.lat = some (rng.coord i).1 ∧ d2.lon = some (rng.coord i).2) := by
  intro i d d2 hd hd2
  rw [sanitize_getElem? rng i ds, hd] at hd2
  simp only [Option.map_some'] at hd2
  have hd2e : d2 = sanitizeOne rng i d := (Option.some.inj hd2).symm
  subst hd2e
  refine ⟨?_, ?_, ?_, ?_, ?_, ?_, ?_, ?_, ?_⟩
  · intro v hv; simp [sanitizeOne, hv]
  · intro v hv; simp [sanitizeOne, hv]
  · intro v hv; simp [sanitizeOne, hv]
  · intro v hv; simp [sanitizeOne, hv]
  · intro v hv; simp [sanitizeOne, hv]
  · intro v hv; simp [sanitizeOne, hv]
  · intro v hv; simp [sanitizeOne, hv]
  · intro a b ha hb
    constructor <;> simp [sanitizeOne, ha, hb]
  · intro hab
    rcases hab with h | h <;>
      cases hlat : d.lat <;> cases hlon : d.lon <;>
        simp_all [sanitizeOne]

/-- Witness for the amended C2 at a concrete input. -/
theorem sanitize_no_overwrite_amended_witness :
    (sanitizeOne rng0 0 { emptyDelivery with lat := some 5, lon := some 6 }).lat
      = some 5 ∧
    (sanitizeOne rng0 0 { emptyDelivery with lat := some 5, lon := some 6 }).lon
      = some 6 :=
  (sanitize_no_overwrite_amended rng0
    [{ emptyDelivery with lat := some 5, lon := some 6 }] 0
    { emptyDelivery with lat := some 5, lon := some 6 }
    (sanitizeOne rng0 0 { emptyDelivery with lat := some 5, lon := some 6 })
    rfl rfl).2.2.2.2.2.2.2.1 5 6 rfl rfl

/-- The C3 counterexample input: a present id `"D2"` followed by a record
with no id, whose positional default is also `"D2"`. -/
def dupIdInput : List Delivery :=
  [{ emptyDelivery with delivery_id := some "D2" }, emptyDelivery]

/-- C3 as stated is false on the code: the present ids of the input are
pairwise distinct (there is only one), yet the sanitized output has two
entries with `delivery_id = "D2"`, because the positional default
`"D" + (index+1)` of the id-less second record collides with the present
id of the first. -/
theorem sanitize_default_id_collision_counterexample :
    (dupIdInput.filterMap Delivery.delivery_id).Nodup ∧
    (sanitize_deliveries rng0 dupIdInput).map Delivery.delivery_id =
      [some "D2", some "D2"] := by
  exact ⟨by decide, by decide⟩

/-- C3 amended: when every input record carries a `delivery_id`, the
sanitizer preserves the id sequence exactly, so pairwise-distinct input
ids yield an output with no two entries sharing an id, and duplicate
input ids pass through undeduplicated; a positional default id generated
for an id-less record may however collide with a present id. -/
theorem sanitize_distinct_ids_amended (rng : Rng) (ds : List Delivery)
    (hall : ∀ d ∈ ds, d.delivery_id.isSome = true) :
    (sanitize_deliveries rng ds).map Delivery.delivery_id =
      ds.map Delivery.delivery_id ∧
    ((ds.map Delivery.delivery_id).Nodup →
      ((sanitize_deliveries rng ds).map Delivery.delivery_id).Nodup) := by
  have hmap := sanitizeFrom_map_id rng 0 hall
  exact ⟨hmap, fun hnd => by rwa [sanitize_deliveries, hmap]⟩

/-- Witness for the amended C3 at a concrete input. -/
theorem sanitize_distinct_ids_amended_witness :
    (sanitize_deliveries rng0 [{ emptyDelivery with delivery_id := some "A" },
      { emptyDelivery with delivery_id := some "B" }]).map Delivery.delivery_id =
      [some "A", some "B"] := by
  have h := sanitize_distinct_ids_amended rng0
    [{ emptyDelivery with delivery_id := some "A" },
     { emptyDelivery with delivery_id := some "B" }] (by decide)
  rw [h.1]
  rfl

/-- The C6 counterexample input: a record that already carries a
non-fallback reason string. -/
def customReasonRecord : Delivery :=
  { emptyDelivery with
    delivery_id := some "D1"
    reason := some "Oracle rationale." }

/-- C6 as stated is false on the code: on oracle failure the fallback is
`sanitize_deliveries`, which only defaults absent fields, so a record
whose `reason` was already present keeps it; the returned record carries
`"Oracle rationale."`, not the fallback reason string. -/
theorem prioritize_fallback_reason_counterexample :
    (analyze_priorities rng0 [customReasonRecord] none).2 = false ∧
    (analyze_priorities rng0 [customReasonRecord] none).1.map Delivery.reason =
      [some "Oracle rationale."] ∧
    "Oracle rationale." ≠ FALLBACK_REASON := by
  refine ⟨rfl, by decide, by decide⟩

/-- C6 amended: if the PriorityOracle call fails, `analyze_priorities`
returns the sanitizer-defaulted original set rather than propagating the
failure: same length, every record fully populated, every present
`delivery_id` of the input preserved positionally, the `reason` field of every record
populated — with the fixed fallback reason string used for
records that lacked a reason (an already-present reason is kept). -/
theorem prioritize_fallback_amended (rng : Rng) (ds : List Delivery) :
    analyze_priorities rng ds none = (sanitize_deliveries rng ds, false) ∧
    (analyze_priorities rng ds none).1.length = ds.length ∧
    (∀ d ∈ (analyze_priorities rng ds none).1, d.full = true) ∧
    ∀ (i : Nat) (d d2 : Delivery), ds[i]? = some d →
      (analyze_priorities rng ds none).1[i]? = some d2 →
      (∀ k, d.delivery_id = some k → d2.delivery_id = some k) ∧
      d2.reason.isSome = true ∧
      (d.reason = none → d2.reason = some FALLBACK_REASON) := by
  refine ⟨rfl, sanitizeFrom_length rng 0 ds, sanitizeFrom_all_full rng 0 ds, ?_⟩
  intro i d d2 hd hd2
  have hd2' : (sanitize_deliveries rng ds)[i]? = some d2 := hd2
  rw [sanitize_getElem? rng i ds, hd] at hd2'
  simp only [Option.map_some'] at hd2'
  have hd2e : d2 = sanitizeOne rng i d := (Option.some.inj hd2').symm
  subst hd2e
  refine ⟨?_, ?_, ?_⟩
  · intro k hk; simp [sanitizeOne, hk]
  · rfl
  · intro hr; simp [sanitizeOne, hr]

/-- Witness for the amended C6 at a concrete input. -/
theorem prioritize_fallback_amended_witness :
    (sanitizeOne rng0 0 emptyDelivery).reason = some FALLBACK_REASON :=
  ((prioritize_fallback_amended rng0 [emptyDelivery]).2.2.2 0 emptyDelivery
    (sanitizeOne rng0 0 emptyDelivery) rfl rfl).2.2 rfl

/-- The prior delivery used by the merge counterexamples and witnesses. -/
def priorD1 : Delivery :=
  ⟨some "D1", some "Insulin Vial", some "Salt Lake", some 22, some 88,
    some "Ravi", some "High", some 8, some "urgent medical item"⟩

/-- The C1 counterexample response: two partial records keyed by the same
`delivery_id`. -/
def dupIdResponse : List Delivery :=
  [{ emptyDelivery with delivery_id := some "D1", assigned_agent := some "Amit" },
   { emptyDelivery with delivery_id := some "D1", reason := some "rerouted" }]

/-- C1 as stated is false on the code: when the oracle response repeats a
`delivery_id`, the merge comprehension emits one merged record per
response entry, so the merged result contains two records for `"D1"`,
not exactly one. -/
theorem merge_duplicate_id_counterexample :
    dupIdResponse.all (fun o => o.delivery_id.isSome) = true ∧
    (mergeRoutes [priorD1] dupIdResponse).isSome = true ∧
    ((mergeRoutes [priorD1] dupIdResponse).getD []).countP
      (fun m => m.delivery_id == some "D1") = 2 := by
  refine ⟨by decide, by decide, by decide⟩

/-- C1 amended: when the `delivery_id`s of the oracle response are pairwise
distinct (each response record carrying one, and every prior record
carrying one so the merge does not raise), the merged result of
`optimize_routes` contains exactly one record per id appearing in the
response and no others; each merged record is the prior delivery with
that id (or the empty record if the id did not exist before) with every
field present in the partial record overlaid on top; prior deliveries
whose id is absent from the response are dropped.  If the oracle repeats
an id, the merge instead emits one record per response entry. -/
theorem merge_membership_narrowing (prior resp : List Delivery)
    (hprior : ∀ p ∈ prior, p.delivery_id.isSome = true)
    (hresp : ∀ o ∈ resp, o.delivery_id.isSome = true)
    (hnd : (resp.map Delivery.delivery_id).Nodup) :
    ∃ merged, mergeRoutes prior resp = some merged ∧
      merged.map Delivery.delivery_id = resp.map Delivery.delivery_id ∧
      (merged.map Delivery.delivery_id).Nodup ∧
      (∀ k : String, (∃ m ∈ merged, m.delivery_id = some k) ↔
        (∃ o ∈ resp, o.delivery_id = some k)) ∧
      ∀ (i : Nat) (o : Delivery), resp[i]? = some o →
        ∃ m, merged[i]? = some m ∧
          ((∃ p ∈ prior, p.delivery_id = o.delivery_id ∧ m = overlay p o) ∨
           ((∀ p ∈ prior, p.delivery_id ≠ o.delivery_id) ∧
             m = overlay emptyDelivery o)) := by
  obtain ⟨bm, hbm⟩ := baseMap?_isSome hprior
  have hml := mergeList_some bm hresp
  have hmapeq : ((resp.map (fun o =>
      overlay ((lookupLast (o.delivery_id.getD "") bm).getD emptyDelivery) o)).map
        Delivery.delivery_id) = resp.map Delivery.delivery_id := by
    rw [List.map_map]
    refine List.map_congr_left ?_
    intro o ho
    obtain ⟨k, hk⟩ := Option.isSome_iff_exists.mp (hresp o ho)
    show (overlay _ o).delivery_id = o.delivery_id
    rw [overlay_delivery_id hk, hk]
  refine ⟨_, by rw [mergeRoutes, hbm]; exact hml, hmapeq, ?_, ?_, ?_⟩
  · rwa [hmapeq]
  · intro k
    constructor
    · rintro ⟨m, hm, hmk⟩
      have h1 : some k ∈ resp.map Delivery.delivery_id := by
        rw [← hmapeq]
        exact List.mem_map.mpr ⟨m, hm, hmk⟩
      exact List.mem_map.mp h1
    · rintro ⟨o, ho, hok⟩
      have h1 : some k ∈ ((resp.map (fun o =>
          overlay ((lookupLast (o.delivery_id.getD "") bm).getD emptyDelivery) o)).map
            Delivery.delivery_id) := by
        rw [hmapeq]
        exact List.mem_map.mpr ⟨o, ho, hok⟩
      exact List.mem_map.mp h1
  · intro i o hio
    obtain ⟨k, hk⟩ := Option.isSome_iff_exists.mp
      (hresp o (List.getElem?_mem hio))
    refine ⟨overlay ((lookupLast k bm).getD emptyDelivery) o, ?_, ?_⟩
    · rw [List.getElem?_map, hio]
      simp [hk]
    · rcases lookupLast_spec hbm k with ⟨p, hp, hpk, hl⟩ | ⟨hall, hl⟩
      · exact Or.inl ⟨p, hp, by rw [hpk, hk], by rw [hl]; rfl⟩
      · refine Or.inr ⟨?_, by rw [hl]; rfl⟩
        intro p hp heq
        exact hall p hp (heq.trans hk)

/-- Witness for the amended C1 at a concrete input. -/
theorem merge_membership_narrowing_witness :
    ((mergeRoutes [priorD1]
      [{ emptyDelivery with delivery_id := some "D1", assigned_agent := some "Amit" }]).getD
        []).map Delivery.delivery_id = [some "D1"] := by
  obtain ⟨merged, hm, hmap, -, -, -⟩ := merge_membership_narrowing [priorD1]
    [{ emptyDelivery with delivery_id := some "D1", assigned_agent := some "Amit" }]
    (by decide) (by decide) (by decide)
  rw [hm]
  simpa using hmap

/-- C9: when every prior record carries a `delivery_id` but some record of
a parsed oracle response lacks one, the `KeyError` aborts the whole merge
comprehension and `optimize_routes` returns the sanitizer-defaulted full
original set (the failure fallback, same length as the prior set), never
a partially merged set. -/
theorem optimize_routes_all_or_nothing (rng : Rng)
    (prior optimized : List Delivery)
    (hprior : ∀ p ∈ prior, p.delivery_id.isSome = true)
    (hbad : ∃ o ∈ optimized, o.delivery_id = none) :
    optimize_routes rng prior (some optimized) =
      (sanitize_deliveries rng prior, false) ∧
    (optimize_routes rng prior (some optimized)).1.length = prior.length := by
  obtain ⟨bm, hbm⟩ := baseMap?_isSome hprior
  have hmn : mergeRoutes prior optimized = none := by
    rw [mergeRoutes, hbm]
    exact mergeList_none hbad
  constructor
  · simp [optimize_routes, hmn]
  · simp [optimize_routes, hmn, sanitize_deliveries, sanitizeFrom_length]

/-- Witness for C9 at a concrete input. -/
theorem optimize_routes_all_or_nothing_witness :
    optimize_routes rng0 [priorD1] (some [priorD1, emptyDelivery]) =
      (sanitize_deliveries rng0 [priorD1], false) :=
  (optimize_routes_all_or_nothing rng0 [priorD1] [priorD1, emptyDelivery]
    (by decide) ⟨emptyDelivery, by decide, rfl⟩).1

theorem filter_set_single {p : Delivery → Bool} {ds : List Delivery}
    (hp : ds.filter p = []) :
    ∀ {i : Nat}, i < ds.length → ∀ {d2 : Delivery}, p d2 = true →
      (ds.set i d2).filter p = [d2] := by
  induction ds with
  | nil =>
    intro i hi
    simp at hi
  | cons d ds ih =>
    intro i hi d2 hd2
    have hpd : ¬ p d = true := by
      intro hpd
      rw [List.filter_cons_of_pos hpd] at hp
      exact List.cons_ne_nil _ _ hp
    have htail : ds.filter p = [] := by
      rwa [List.filter_cons_of_neg hpd] at hp
    cases i with
    | zero =>
      rw [List.set_cons_zero, List.filter_cons_of_pos hd2, htail]
    | succ i =>
      rw [List.set_cons_succ, List.filter_cons_of_neg hpd]
      exact ih htail (by simpa using hi) hd2

/-- C7: when the filtered view of the agent is empty and the set is non-empty
(`pick` being the index drawn by `random.choice`), auto-assignment sets
the `assigned_agent` of the picked delivery to the capitalized agent id,
persists the whole mutated set (same length, all other entries
unchanged), returns the chosen delivery as the sole assignment, and a
subsequent `filter_by_agent` on the persisted set returns exactly that
delivery. -/
theorem auto_assign_assigns (ds : List Delivery) (agentId : String)
    (pick : Nat) (hempty : filter_by_agent ds agentId = [])
    (hpick : pick < ds.length) :
    ∃ d, ds[pick]? = some d ∧
      auto_assign_if_unassigned ds agentId pick =
        (ds.set pick { d with assigned_agent := some (pyCapitalize agentId) },
         [{ d with assigned_agent := some (pyCapitalize agentId) }]) ∧
      filter_by_agent
        (ds.set pick { d with assigned_agent := some (pyCapitalize agentId) })
        agentId = [{ d with assigned_agent := some (pyCapitalize agentId) }] ∧
      (ds.set pick
        { d with assigned_agent := some (pyCapitalize agentId) }).length =
        ds.length ∧
      ∀ j, j ≠ pick →
        (ds.set pick
          { d with assigned_agent := some (pyCapitalize agentId) })[j]? =
          ds[j]? := by
  have hget : ds[pick]? = some ds[pick] := List.getElem?_eq_getElem hpick
  have hne : ds.isEmpty = false := by
    cases ds with
    | nil => simp at hpick
    | cons d ds => rfl
  refine ⟨ds[pick], hget, ?_, ?_, by simp, ?_⟩
  · rw [auto_assign_if_unassigned]
    simp only [hempty, List.isEmpty_nil, hne, Bool.not_false, Bool.and_self,
      if_true, hget]
  · refine filter_set_single hempty hpick ?_
    simp [pyLower_pyCapitalize]
  · intro j hj
    exact List.getElem?_set_ne (Ne.symm hj)

/-- Witness for C7 at a concrete input: set `[priorD1]` (agent `"Ravi"`),
requesting agent `"amit"`. -/
theorem auto_assign_assigns_witness :
    (auto_assign_if_unassigned [priorD1] "amit" 0).2.map
      Delivery.assigned_agent = [some "Amit"] := by
  obtain ⟨d, hd, heq, -, -, -⟩ :=
    auto_assign_assigns [priorD1] "amit" 0 (by decide) (by decide)
  have hd2 : d = priorD1 := by
    have := hd
    simp at this
    exact this.symm
  subst hd2
  rw [heq]
  decide

/-- C8: `filter_by_agent` matches `assigned_agent` case-insensitively:
two agent ids that agree up to letter case produce identical result
sequences, and a delivery is in the result exactly when it is in the set
and its `assigned_agent` (defaulted to the empty string) equals the agent
id up to case. -/
theorem filter_by_agent_case_insensitive (ds : List Delivery) (a b : String)
    (h : pyLower a = pyLower b) :
    filter_by_agent ds a = filter_by_agent ds b ∧
    ∀ d, d ∈ filter_by_agent ds a ↔
      (d ∈ ds ∧ pyLower (d.assigned_agent.getD "") = pyLower a) := by
  constructor
  · rw [filter_by_agent, filter_by_agent, h]
  · intro d
    rw [filter_by_agent, List.mem_filter]
    constructor
    · rintro ⟨hd, hb⟩
      exact ⟨hd, by simpa using hb⟩
    · rintro ⟨hd, hb⟩
      exact ⟨hd, by simpa using hb⟩

/-- Witness for C8 at a concrete input. -/
theorem filter_by_agent_case_insensitive_witness :
    filter_by_agent [priorD1] "RAVI" = filter_by_agent [priorD1] "ravi" :=
  (filter_by_agent_case_insensitive [priorD1] "RAVI" "ravi" (by decide)).1

/-- C10: `filter_by_agent` is total over records with a missing
`assigned_agent`: such a record is treated as carrying the empty string
and is never matched by a non-empty agent id. -/
theorem filter_by_agent_missing_field (ds : List Delivery) (agentId : String)
    (h : agentId ≠ "") :
    (∀ d : Delivery, d.assigned_agent = none →
      d.assigned_agent.getD "" = "") ∧
    ∀ d ∈ ds, d.assigned_agent = none → d ∉ filter_by_agent ds agentId := by
  constructor
  · intro d hd
    rw [hd]
    rfl
  · intro d hd hnone hmem
    rw [filter_by_agent, List.mem_filter] at hmem
    have hb := hmem.2
    rw [hnone] at hb
    have h1 : pyLower (Option.getD none "") = pyLower agentId := by
      simpa using hb
    have h2 : pyLower agentId = "" := h1.symm
    exact h ((pyLower_eq_empty_iff agentId).mp h2)

/-- Witness for C10 at a concrete input. -/
theorem filter_by_agent_missing_field_witness :
    emptyDelivery ∉ filter_by_agent [emptyDelivery] "ravi" :=
  (filter_by_agent_missing_field [emptyDelivery] "ravi" (by decide)).2
    emptyDelivery (by decide) rfl
